import Mathlib

/-!
# Verification of the midi_transpose_rs note-transformation engine

Shallow embedding of the core of `src/lib.rs` and `src/arpeggiator.rs`
(the variant actually wired into the plugin: `MidiTransposer` +
`Arpeggiator`).  Machine integers are modelled by `Nat`/`Int`; the Rust
`as u8` / `as u32` casts, which are defined to wrap (resp. saturate for
float-to-int), are modelled explicitly (`toU8`, `clampU32`).  `f32`/`f64`
quantities (sample rate, speed, tempo, velocity, beat divisions) are
modelled as exact rationals.  `u32`/`usize` additions are modelled
exactly (Rust aborts on overflow in checked builds); the `u32`/`usize`
subtractions and moduli that the source guards by branch conditions are
modelled with truncating `Nat` subtraction / total `Nat` modulo, and every
theorem below that touches them works inside the source's guards.
-/

namespace MidiTransposerModel

/-- Rust `x as u8` on an integer: two's-complement truncation mod 256. -/
def toU8 (z : ℤ) : ℕ := (z % 256).toNat

/-- Rust `x as u32` on a float (here an exact rational): truncation toward
zero, saturating at the `u32` bounds (the value is nonnegative in every
use below, so truncation is `Int.floor`). -/
def clampU32 (z : ℤ) : ℕ :=
  if z ≤ 0 then 0 else if z ≤ 2 ^ 32 - 1 then z.toNat else 2 ^ 32 - 1

/-- `q as u32` for a rational `q` (float-to-int cast of the source:
truncation toward zero, saturating at the `u32` bounds; truncation
agrees with the floor on nonnegative values, and every negative value is
saturated to 0 by the clamp either way). -/
def ratToU32 (q : ℚ) : ℕ := clampU32 ⌊q⌋

/-- `q.ceil() as u32` for a rational `q`. -/
def ratCeilToU32 (q : ℚ) : ℕ := clampU32 ⌈q⌉

/-- Rust `Option::unwrap` on a note number.  The panic case is modelled by
the default `0`; every theorem below that depends on an unwrapped note
carries a hypothesis (or concrete state) making the option a `some`. -/
def unwrapN (o : Option ℕ) : ℕ := o.getD 0

/-- `NoteInfo` from the source: a note event value (note number is an
`Option` so that "no note" states are representable, as in the source's
`reset`/`is_active`). -/
structure NoteInfo where
  note : Option ℕ
  channel : ℕ
  velocity : ℚ
  timing : ℕ
deriving DecidableEq, Repr

instance : Inhabited NoteInfo := ⟨⟨none, 0, 0, 0⟩⟩

/-- `NoteInfo::is_active`. -/
def NoteInfo.isActive (ni : NoteInfo) : Bool := ni.note.isSome

/-- The outgoing/incoming MIDI event stream: note events plus the opaque
"other" events the processor forwards untouched. -/
inductive MidiEvent where
  | noteOn (note : ℕ) (channel : ℕ) (velocity : ℚ) (timing : ℕ)
  | noteOff (note : ℕ) (channel : ℕ) (velocity : ℚ) (timing : ℕ)
  | other (channel : Option ℕ)
deriving DecidableEq, Repr

/-- `NoteEvent::channel()` of nih_plug: the channel of a note event,
`none` for events that carry no channel. -/
def MidiEvent.chan : MidiEvent → Option ℕ
  | .noteOn _ c _ _ => some c
  | .noteOff _ c _ _ => some c
  | .other c => c

/-- One pitch-class panel of `MidiTransposerParams::notes`
(`active`, `transpose` in -12..12, six interval sliders in -12..12). -/
structure NoteParam where
  active : Bool
  transpose : ℤ
  intervals : List ℤ
deriving DecidableEq, Repr

/-- `ArpParams`. -/
structure ArpParams where
  activated : Bool
  synced : Bool
  speed : ℚ
  rate : ℕ
deriving DecidableEq, Repr

/-- `MidiTransposerParams`: channels 0..16, octave transpose -1..4,
twelve pitch-class panels (indexed by pitch class). -/
structure Params where
  inChannel : ℕ
  outChannel : ℕ
  octaveTranspose : ℤ
  arp : ArpParams
  notes : ℕ → NoteParam

/-- The mutable state of `Arpeggiator`. -/
structure ArpState where
  samplerate : ℚ
  synced : Bool
  tempo : Option ℚ
  numSamples : ℕ
  division : ℚ
  nextBeatPosition : ℚ
  time : ℕ
  currentIndex : ℕ
  noteInfo : NoteInfo
deriving DecidableEq, Repr

/-- `Arpeggiator::new` (the sample rate is set separately at plugin
initialisation). -/
def ArpState.init : ArpState :=
  { samplerate := 0, synced := false, tempo := none, numSamples := 0,
    division := 1, nextBeatPosition := 0, time := 0, currentIndex := 0,
    noteInfo := default }

/-- `Arpeggiator::reset`: clears everything except the sample rate and
the synced flag. -/
def arpReset (a : ArpState) : ArpState :=
  { a with tempo := none, numSamples := 0, division := 1,
           nextBeatPosition := 0, time := 0, currentIndex := 0,
           noteInfo := default }

/-- `Arpeggiator::restart`: only the rotation index is reset. -/
def arpRestart (a : ArpState) : ArpState := { a with currentIndex := 0 }

/-- The `NOTE_DIVISIONS` table (beat fractions as quarter-note
multiples). -/
def noteDivisions : List ℚ := [4, 2, 3/2, 1, 3/4, 2/3, 1/2, 1/3, 1/4]

/-- The free-running branch of `Arpeggiator::get_note_duration`:
`(samplerate * 0.1 * (0.1 + (5.0 - 5.0 * speed))) as u32`. -/
def freeNoteDuration (samplerate speed : ℚ) : ℕ :=
  ratToU32 (samplerate * (1/10) * (1/10 + (5 - 5 * speed)))

/-- `Arpeggiator::get_note_duration`: the synced formula is used only
when `synced` is set and the (0-defaulted) tempo is strictly positive
(`tempo > 0.0`, written on the numerator so it computes); otherwise the
free-running formula. -/
def getNoteDuration (st : ArpState) (speed : ℚ) : ℕ :=
  let tempo := st.tempo.getD 0
  if st.synced = true ∧ 0 < tempo.num then
    ratCeilToU32 (st.samplerate / (tempo / 60) * st.division)
  else
    freeNoteDuration st.samplerate speed

/-- The divisor `tempo.unwrap_or(60.0) / 60.0` of the `samples_per_beat`
computation in `Arpeggiator::arpeggiate_sync`. -/
def tempoDivisor (st : ArpState) : ℚ := st.tempo.getD 60 / 60

/-- `samples_per_beat` of `Arpeggiator::arpeggiate_sync`. -/
def syncSamplesPerBeat (st : ArpState) : ℚ := st.samplerate / tempoDivisor st

/-- The `while self.time < self.num_samples` loop of the
`duration <= block` branch of `Arpeggiator::arpeggiate_free`, written
with explicit fuel.  `num_samples + 1` units of fuel are always enough
when the note duration is at least 1 (the counter grows by the duration
each round); with duration 0 the source loop never terminates. -/
def freeLoop (d ns : ℕ) : ℕ → ℕ → List ℕ → List ℕ × ℕ
  | 0, time, acc => (acc, time)
  | fuel + 1, time, acc =>
    if time < ns then
      freeLoop d ns fuel (time + d)
        (if time + d < ns then acc ++ [time + d] else acc)
    else (acc, time)

/-- `Arpeggiator::arpeggiate_free`: returns the updated state and the
list of trigger offsets pushed into `timings`. -/
def arpeggiateFree (st : ArpState) (speed : ℚ) : ArpState × List ℕ :=
  let d := getNoteDuration st speed
  if st.numSamples < d then
    let timings :=
      if d ≤ st.time + st.numSamples then
        [min (d - st.time) (st.numSamples - 1)]
      else []
    ({ st with time := (st.time + st.numSamples) % d }, timings)
  else
    let r := freeLoop d st.numSamples (st.numSamples + 1) st.time []
    ({ st with time := r.2 % st.numSamples }, r.1)

/-- `m` consecutive processing blocks of `ns` samples each, all in free
mode with a constant `speed` (as driven by `MidiTransposer::process_arp`,
which stores the block's sample count before each call).  Returns the
final arpeggiator state and the total number of triggers fired. -/
def runFreeBlocks (speed : ℚ) (ns : ℕ) : ℕ → ArpState → ArpState × ℕ
  | 0, st => (st, 0)
  | m + 1, st =>
    let r := arpeggiateFree { st with numSamples := ns } speed
    let rest := runFreeBlocks speed ns m r.1
    (rest.1, r.2.length + rest.2)

/-- The trigger count of `runFreeBlocks`. -/
def runFreeCount (speed : ℚ) (ns m : ℕ) (st : ArpState) : ℕ :=
  (runFreeBlocks speed ns m st).2

/-- The mutable state of `MidiTransposer` (parameters are passed
separately, as read-only values). -/
structure TransposerState where
  arp : ArpState
  midiEvents : List MidiEvent
  currentNoteHeld : NoteInfo
  generatedChord : List NoteInfo
  notesHeld : List NoteInfo
deriving DecidableEq, Repr

/-- `MidiTransposer::default` (with the per-block event buffer empty). -/
def TransposerState.initial : TransposerState :=
  { arp := ArpState.init, midiEvents := [], currentNoteHeld := default,
    generatedChord := [], notesHeld := [] }

/-- `self.midi_events.push(event)`. -/
def pushEvent (st : TransposerState) (e : MidiEvent) : TransposerState :=
  { st with midiEvents := st.midiEvents ++ [e] }

/-- `MidiTransposer::build_chord`, translated line by line from
`src/lib.rs`.  Notable traits of the source preserved here: the
per-pitch-class transpose is applied to `mapped_note_info` only inside
the `octave_transpose != 0` branch (it mutates in place there), the
interval sliders are kept only when strictly positive, interval 0 is
always inserted, and each computed pitch goes through an `as u8`
truncation before the `> 127` drop test.  The `unwrap` of the incoming
note is represented by matching; the source is only ever called with an
active note, so the `none` arm is unreachable. -/
def buildChord (p : Params) (niIn : NoteInfo) : List NoteInfo :=
  match niIn.note with
  | none => []
  | some n =>
    let baseNote := n % 12
    let np := p.notes baseNote
    if np.active = false then [niIn]
    else
      let otU8 : ℕ := toU8 p.octaveTranspose
      let mapped : ℕ := if otU8 ≠ 0 then toU8 ((n : ℤ) + np.transpose) else n
      let firstPush : List NoteInfo :=
        if otU8 ≠ 0 then [{ niIn with note := some mapped }] else []
      let ivs : List ℤ := 0 :: (np.intervals.filter (fun i => 0 < i)).dedup
      let rest : List NoteInfo := ivs.filterMap (fun i =>
        let mappedNote : ℕ := toU8 ((mapped : ℤ) + (otU8 : ℤ) * 12 + i)
        if 127 < mappedNote then none
        else some ⟨some mappedNote, niIn.channel, niIn.velocity, niIn.timing⟩)
      firstPush ++ rest

/-- `MidiTransposer::play_chord`. -/
def playChord (st : TransposerState) (timing : ℕ) : TransposerState :=
  { st with midiEvents := st.midiEvents ++
      st.generatedChord.map (fun x =>
        MidiEvent.noteOn (unwrapN x.note) x.channel x.velocity timing) }

/-- `MidiTransposer::stop_chord`. -/
def stopChord (st : TransposerState) (vel : ℚ) (timing : ℕ) : TransposerState :=
  { st with midiEvents := st.midiEvents ++
      st.generatedChord.map (fun x =>
        MidiEvent.noteOff (unwrapN x.note) x.channel vel timing) }

/-- `MidiTransposer::process_note_on`. -/
def processNoteOn (p : Params) (st : TransposerState) (ni : NoteInfo) :
    TransposerState :=
  let st1 := { st with notesHeld := st.notesHeld ++ [ni] }
  let st2 :=
    if p.arp.activated = false ∧ ni.note ≠ st1.currentNoteHeld.note ∧
        st1.currentNoteHeld.isActive = true then
      stopChord st1 ni.velocity ni.timing
    else st1
  let st3 := { st2 with generatedChord := buildChord p ni }
  let st4 := if p.arp.activated = false then playChord st3 ni.timing else st3
  let st5 := { st4 with currentNoteHeld := ni }
  { st5 with arp := arpRestart st5.arp }

/-- The all-notes-released branch of `process_note_off` (entered from
the state after the stack removal and the chord-mode stop): reset the
current note, clear the chord, emit a note-off for a sounding
arpeggiator note, and reset the arpeggiator. -/
def noteOffEmptyBranch (st2 : TransposerState) (ni : NoteInfo) : TransposerState :=
  let st3 := { st2 with currentNoteHeld := default, generatedChord := [] }
  let st4 :=
    if st3.arp.noteInfo.isActive = true then
      pushEvent st3 (MidiEvent.noteOff (unwrapN st3.arp.noteInfo.note)
        st3.arp.noteInfo.channel ni.velocity ni.timing)
    else st3
  { st4 with arp := arpReset st4.arp }

/-- The notes-still-held branch of `process_note_off`: rebuild and (in
chord mode) play the chord of the stack top, then store the *released*
note in `current_note_held` — verbatim from the source's
`self.current_note_held = *note_info;` — and restart the arpeggiator. -/
def noteOffHeldBranch (p : Params) (st2 : TransposerState) (ni : NoteInfo) :
    TransposerState :=
  match st2.notesHeld.getLast? with
  | none => st2
  | some newNi =>
    let st3 := { st2 with generatedChord := buildChord p newNi }
    let st4 :=
      if p.arp.activated = false then playChord st3 newNi.timing else st3
    let st5 := { st4 with currentNoteHeld := ni }
    { st5 with arp := arpRestart st5.arp }

/-- `MidiTransposer::process_note_off`. -/
def processNoteOff (p : Params) (st : TransposerState) (ni : NoteInfo) :
    TransposerState :=
  let st1 := { st with notesHeld := st.notesHeld.filter (fun x => x.note ≠ ni.note) }
  if ni.note = st1.currentNoteHeld.note then
    let st2 :=
      if p.arp.activated = false then stopChord st1 ni.velocity ni.timing else st1
    if st2.notesHeld = [] then noteOffEmptyBranch st2 ni
    else noteOffHeldBranch p st2 ni
  else st1

/-- The note-off events `play_arp_note` emits for the previously
sounding arpeggio note, if any. -/
def arpOffEvents (st : TransposerState) (timing : ℕ) : List MidiEvent :=
  match st.arp.noteInfo.note with
  | some n => [MidiEvent.noteOff n st.arp.noteInfo.channel
                 st.arp.noteInfo.velocity timing]
  | none => []

/-- `MidiTransposer::play_arp_note`.  The chord access
`generated_chord[current_index]` is modelled with `List.getD`; the
out-of-bounds panic of the source is unreachable under the index
invariant proved below. -/
def playArpNote (st : TransposerState) (timing : ℕ) : TransposerState :=
  let st1 :=
    if st.arp.noteInfo.isActive = true then
      pushEvent st (MidiEvent.noteOff (unwrapN st.arp.noteInfo.note)
        st.arp.noteInfo.channel st.arp.noteInfo.velocity timing)
    else st
  if st.generatedChord = [] then st1
  else
    let ni := st.generatedChord.getD st.arp.currentIndex default
    let st2 := { st1 with arp := { st1.arp with noteInfo := ni } }
    let st3 := pushEvent st2 (MidiEvent.noteOn (unwrapN ni.note) ni.channel
      ni.velocity timing)
    { st3 with arp := { st3.arp with
        currentIndex := (st.arp.currentIndex + 1) % st.generatedChord.length } }

/-- The per-event body of the loop in `MidiTransposer::process`:
input-channel filtering, output-channel remapping, and dispatch to
`process_note_on` / `process_note_off`; all other events (and events
rejected by the input filter) are forwarded untouched. -/
def processEvent (p : Params) (st : TransposerState) (ev : MidiEvent) :
    TransposerState :=
  if 0 < p.inChannel ∧ ev.chan ≠ some (p.inChannel - 1) then pushEvent st ev
  else
    match ev with
    | .noteOn n ch v t =>
      processNoteOn p st
        ⟨some n, if 0 < p.outChannel then p.outChannel else ch, v, t⟩
    | .noteOff n ch v t =>
      processNoteOff p st
        ⟨some n, if 0 < p.outChannel then p.outChannel else ch, v, t⟩
    | .other c => pushEvent st (.other c)

/-- The implicit indexing invariant of claim C10: a non-empty generated
chord keeps the rotation index strictly inside the chord. -/
def ChordIndexInv (st : TransposerState) : Prop :=
  st.generatedChord ≠ [] → st.arp.currentIndex < st.generatedChord.length

/-! ## Concrete fixtures used by the counterexample and witness theorems -/

/-- Default-like parameters: no channel filtering, no octave transpose,
arpeggiator off, every pitch class active with transpose 0 and all six
interval sliders at 0. -/
def pD : Params :=
  { inChannel := 0, outChannel := 0, octaveTranspose := 0,
    arp := { activated := false, synced := false, speed := 1, rate := 0 },
    notes := fun _ => { active := true, transpose := 0, intervals := [0,0,0,0,0,0] } }

/-- Note-on C4 (60), channel 0, full velocity, offset 0. -/
def n60 : NoteInfo := ⟨some 60, 0, 1, 0⟩

/-- Note-on D4 (62), channel 0, full velocity, offset 0. -/
def n62 : NoteInfo := ⟨some 62, 0, 1, 0⟩

/-- Note-off for D4 at offset 5. -/
def off62 : NoteInfo := ⟨some 62, 0, 1/2, 5⟩

/-- Note-off for C4 at offset 9. -/
def off60 : NoteInfo := ⟨some 60, 0, 1/2, 9⟩

/-- State after pressing C4. -/
def stA : TransposerState := processNoteOn pD TransposerState.initial n60

/-- State after pressing C4 then D4. -/
def stB : TransposerState := processNoteOn pD stA n62

/-- State after pressing C4, pressing D4, releasing D4. -/
def stC : TransposerState := processNoteOff pD stB off62

/-- State after pressing C4, pressing D4, releasing D4, releasing C4:
every pressed note has been released. -/
def stD : TransposerState := processNoteOff pD stC off60

/-- Parameters with pitch-class transpose +7 and no octave transpose. -/
def p2 : Params :=
  { pD with notes := fun _ => { active := true, transpose := 7, intervals := [0,0,0,0,0,0] } }

/-- Parameters with a configured interval of -5 (and transpose 0,
octave transpose 0). -/
def pC4 : Params :=
  { pD with notes := fun _ => { active := true, transpose := 0, intervals := [-5,0,0,0,0,0] } }

/-- Parameters with intervals {4, 7}: the major-triad scenario of the
spec. -/
def pTriad : Params :=
  { pD with notes := fun _ => { active := true, transpose := 0, intervals := [4,7,0,0,0,0] } }

/-- Free-mode arpeggiator state at sample rate 1000 (speed 1 gives note
duration 10). -/
def exArp : ArpState :=
  { samplerate := 1000, synced := false, tempo := none, numSamples := 0,
    division := 1, nextBeatPosition := 0, time := 0, currentIndex := 0,
    noteInfo := default }

/-- Free-mode arpeggiator state at sample rate 1000 with a block of 5
samples (half the speed-1 note duration). -/
def exArpSmall : ArpState := { exArp with numSamples := 5 }

/-- Free-mode arpeggiator state at sample rate 50: the free-running
duration formula truncates to 0 at speed 1. -/
def exLow : ArpState :=
  { samplerate := 50, synced := false, tempo := none, numSamples := 0,
    division := 1, nextBeatPosition := 0, time := 0, currentIndex := 0,
    noteInfo := default }

/-- Parameters with the output-channel remap forced to 16 (the top of
its 0..16 range) and pitch class C inactive. -/
def p7 : Params :=
  { pD with outChannel := 16,
            notes := fun _ => { active := false, transpose := 0, intervals := [0,0,0,0,0,0] } }

/-- A major-triad generated chord on channel 2. -/
def chordW : List NoteInfo := [⟨some 60, 2, 1, 0⟩, ⟨some 64, 2, 1, 0⟩, ⟨some 67, 2, 1, 0⟩]

/-- An arpeggiating state: triad chord, rotation index 1, note 60
currently sounding. -/
def stW : TransposerState :=
  { arp := { ArpState.init with noteInfo := ⟨some 60, 2, 1, 0⟩, currentIndex := 1 },
    midiEvents := [], currentNoteHeld := ⟨some 60, 2, 1, 0⟩,
    generatedChord := chordW, notesHeld := [⟨some 60, 2, 1, 0⟩] }

/-! ## Computation lemmas -/

/-- With the synced flag off, `get_note_duration` always takes the
free-running branch. -/
lemma getNoteDuration_eq_free (st : ArpState) (speed : ℚ) (h : st.synced = false) :
    getNoteDuration st speed = freeNoteDuration st.samplerate speed := by
  simp [getNoteDuration, h]

/-- At sample rate 1000 and speed 1, the free-running note duration is
10 samples. -/
lemma freeNoteDuration_1000 : freeNoteDuration 1000 1 = 10 := by
  norm_num [freeNoteDuration, ratToU32, clampU32]
  rfl

/-- At sample rate 50 and speed 1, the free-running note duration
truncates to 0 samples. -/
lemma freeNoteDuration_50 : freeNoteDuration 50 1 = 0 := by
  norm_num [freeNoteDuration, ratToU32, clampU32]

/-- Exit equation of the free-mode loop. -/
lemma freeLoop_stop (d ns fuel t : ℕ) (acc : List ℕ) (h : ¬ t < ns) :
    freeLoop d ns (fuel + 1) t acc = (acc, t) := by
  simp [freeLoop, h]

/-- Step equation of the free-mode loop. -/
lemma freeLoop_step (d ns fuel t : ℕ) (acc : List ℕ) (h : t < ns) :
    freeLoop d ns (fuel + 1) t acc =
      freeLoop d ns fuel (t + d) (if t + d < ns then acc ++ [t + d] else acc) := by
  simp [freeLoop, h]

/-- When the note duration equals the (positive) block size and the
sample counter starts at 0, one free-mode block fires no trigger and
returns the counter to 0: the candidate timing `time + duration` is
tested with a strict `<` against the block size and always fails. -/
lemma arpeggiateFree_equal_block (st : ArpState) (speed : ℚ)
    (h2 : 1 ≤ st.numSamples) (h1 : st.time = 0)
    (hd : getNoteDuration st speed = st.numSamples) :
    arpeggiateFree st speed = (st, []) := by
  obtain ⟨k, hk⟩ : ∃ k, st.numSamples = k + 1 := ⟨st.numSamples - 1, by omega⟩
  have hloop : freeLoop st.numSamples st.numSamples (st.numSamples + 1) 0 [] =
      ([], st.numSamples) := by
    rw [freeLoop_step _ _ _ _ _ (by omega)]
    simp only [Nat.zero_add, lt_irrefl, if_false]
    rw [hk]
    exact freeLoop_stop _ _ _ _ _ (by omega)
  have hcond : ¬ st.numSamples < getNoteDuration st speed := by omega
  simp only [arpeggiateFree, hd, hcond, if_false, h1, hloop]
  have : st.numSamples % st.numSamples = 0 := Nat.mod_self _
  cases st
  simp_all

/-- Iterating `m` equal-sized free-mode blocks whose size equals the
note duration fires no trigger at all. -/
lemma runFreeBlocks_equal_count (speed : ℚ) (ns m : ℕ) (st : ArpState)
    (h2 : 1 ≤ ns) (h1 : st.time = 0)
    (hd : getNoteDuration { st with numSamples := ns } speed = ns) :
    (runFreeBlocks speed ns m st).2 = 0 := by
  induction m generalizing st with
  | zero => rfl
  | succ m ih =>
    have hblock := arpeggiateFree_equal_block { st with numSamples := ns } speed h2 h1 hd
    simp only [runFreeBlocks, hblock, List.length_nil, Nat.zero_add]
    exact ih { st with numSamples := ns } h1 hd

/-- Structure-update congruence: `get_note_duration` reads only the
sample rate, the synced flag, the tempo and the division. -/
lemma getNoteDuration_update (st : ArpState) (a b : ℕ) (speed : ℚ) :
    getNoteDuration { st with numSamples := a, time := b } speed =
      getNoteDuration st speed := rfl

/-- One induction step behind free-mode periodicity: starting from any
in-phase counter `time < duration` with `duration = k * block`, `k ≥ 2`,
running `m` blocks fires exactly `(time + m * block) / duration`
triggers (the counter crosses a duration boundary exactly that often). -/
lemma runFreeBlocks_periodic_aux (speed : ℚ) (d ns : ℕ) (hns : 1 ≤ ns) (hnsd : ns < d) :
    ∀ (m : ℕ) (st : ArpState), st.time < d →
      getNoteDuration { st with numSamples := ns } speed = d →
      (runFreeBlocks speed ns m st).2 = (st.time + m * ns) / d := by
  intro m
  induction m with
  | zero =>
    intro st ht hd
    simp [runFreeBlocks, Nat.div_eq_of_lt ht]
  | succ m ih =>
    intro st ht hd
    have hdpos : 0 < d := by omega
    have harp : arpeggiateFree { st with numSamples := ns } speed =
        ({ st with numSamples := ns, time := (st.time + ns) % d },
         if d ≤ st.time + ns then [min (d - st.time) (ns - 1)] else []) := by
      simp only [arpeggiateFree, hd]
      rw [if_pos hnsd]
    have hrec : (runFreeBlocks speed ns m
        { st with numSamples := ns, time := (st.time + ns) % d }).2 =
        ((st.time + ns) % d + m * ns) / d := by
      simpa using ih { st with numSamples := ns, time := (st.time + ns) % d }
        (Nat.mod_lt _ hdpos) hd
    have hsm : (m + 1) * ns = m * ns + ns := by ring
    simp only [runFreeBlocks, harp, hrec]
    rcases le_or_lt d (st.time + ns) with hfire | hfire
    · rw [if_pos hfire]
      simp only [List.length_singleton]
      have hdiv1 : (st.time + ns) / d = 1 := Nat.div_eq_of_lt_le (by omega) (by omega)
      have hmod := Nat.div_add_mod (st.time + ns) d
      rw [hdiv1, Nat.mul_one] at hmod
      have hrw : st.time + (m + 1) * ns = d + ((st.time + ns) % d + m * ns) := by omega
      rw [hrw, Nat.add_div_left _ hdpos]
      omega
    · rw [if_neg (by omega)]
      simp only [List.length_nil]
      have hmod : (st.time + ns) % d = st.time + ns := Nat.mod_eq_of_lt hfire
      rw [hmod]
      have hrw : st.time + (m + 1) * ns = st.time + ns + m * ns := by omega
      rw [hrw, Nat.zero_add]

/-! ## Wrapping-cast arithmetic -/

lemma toU8_int (z : ℤ) : (toU8 z : ℤ) = z % 256 := by
  unfold toU8
  exact Int.toNat_of_nonneg (Int.emod_nonneg z (by norm_num))

lemma toU8_eq_self (z : ℤ) (h1 : 0 ≤ z) (h2 : z < 256) : (toU8 z : ℤ) = z := by
  rw [toU8_int]
  omega

lemma toU8_ne_zero (z : ℤ) (h1 : -256 < z) (h2 : z < 256) : toU8 z ≠ 0 ↔ z ≠ 0 := by
  have h := toU8_int z
  omega

/-- The per-interval pitch computation of `build_chord`: for parameter
values in their declared ranges, the `as u8` truncation followed by the
`> 127` test keeps exactly the pitches whose exact integer value
`mapped + 12 * octave + interval` lies in [0,127], and on those it
computes that exact value (the octave factor enters as `(octave as u8) *
12`, whose deviation from `12 * octave` is a multiple of 256). -/
lemma interval_pitch_iff (mp ot i : ℤ) (m : ℕ)
    (hmp1 : 0 ≤ mp) (hmp2 : mp ≤ 127)
    (hot1 : -1 ≤ ot) (hot2 : ot ≤ 4) (hi1 : -12 ≤ i) (hi2 : i ≤ 12) :
    (¬ 127 < toU8 (mp + (toU8 ot : ℤ) * 12 + i) ∧
      toU8 (mp + (toU8 ot : ℤ) * 12 + i) = m) ↔
    ((m : ℤ) = mp + 12 * ot + i ∧ m ≤ 127) := by
  have h1 := toU8_int ot
  have h2 := toU8_int (mp + (toU8 ot : ℤ) * 12 + i)
  omega

lemma mem_ite_singleton {α : Type} (c : Prop) [Decidable c] (r x : α) :
    (x ∈ (if c then [r] else [])) ↔ (c ∧ x = r) := by
  by_cases h : c
  · simp [h]
  · simp [h]

lemma ifNoneSome_eq_some {α : Type} (c : Prop) [Decidable c] (a b : α) :
    ((if c then none else some a) = some b) ↔ (¬ c ∧ a = b) := by
  constructor
  · intro h
    split at h
    · exact absurd h (by simp)
    · exact ⟨by assumption, Option.some_inj.mp h⟩
  · rintro ⟨h1, h2⟩
    rw [if_neg h1, h2]

/-! ## Projection lemmas -/

@[simp] lemma stopChord_arp (st : TransposerState) (v : ℚ) (t : ℕ) :
    (stopChord st v t).arp = st.arp := rfl

@[simp] lemma stopChord_generatedChord (st : TransposerState) (v : ℚ) (t : ℕ) :
    (stopChord st v t).generatedChord = st.generatedChord := rfl

@[simp] lemma stopChord_notesHeld (st : TransposerState) (v : ℚ) (t : ℕ) :
    (stopChord st v t).notesHeld = st.notesHeld := rfl

@[simp] lemma stopChord_currentNoteHeld (st : TransposerState) (v : ℚ) (t : ℕ) :
    (stopChord st v t).currentNoteHeld = st.currentNoteHeld := rfl

@[simp] lemma playChord_arp (st : TransposerState) (t : ℕ) :
    (playChord st t).arp = st.arp := rfl

@[simp] lemma playChord_generatedChord (st : TransposerState) (t : ℕ) :
    (playChord st t).generatedChord = st.generatedChord := rfl

@[simp] lemma playChord_notesHeld (st : TransposerState) (t : ℕ) :
    (playChord st t).notesHeld = st.notesHeld := rfl

@[simp] lemma pushEvent_arp (st : TransposerState) (e : MidiEvent) :
    (pushEvent st e).arp = st.arp := rfl

@[simp] lemma pushEvent_generatedChord (st : TransposerState) (e : MidiEvent) :
    (pushEvent st e).generatedChord = st.generatedChord := rfl

@[simp] lemma pushEvent_notesHeld (st : TransposerState) (e : MidiEvent) :
    (pushEvent st e).notesHeld = st.notesHeld := rfl

/-- `process_note_on` touches the arpeggiator only through `restart`. -/
lemma processNoteOn_arp (p : Params) (st : TransposerState) (ni : NoteInfo) :
    (processNoteOn p st ni).arp = { st.arp with currentIndex := 0 } := by
  simp only [processNoteOn, arpRestart]
  split <;> split <;> rfl

/-- `process_note_on` always ends with the freshly built chord. -/
lemma processNoteOn_generatedChord (p : Params) (st : TransposerState) (ni : NoteInfo) :
    (processNoteOn p st ni).generatedChord = buildChord p ni := by
  simp only [processNoteOn, arpRestart]
  split <;> split <;> rfl

/-! ## Claim theorems -/

/-- C1 (code bug): the Voice Stack invariant "the current held note, if
present, is the last element of the held-note stack" is broken by
`process_note_off`.  After pressing C4 then D4 and releasing D4 while C4
is still held, the source stores the *released* note (62) in
`current_note_held` instead of the new stack top (60): line 234 of
`src/lib.rs` assigns `*note_info` where the sibling revision
(`midi_processor.rs`) assigns the new stack-top note. -/
theorem c1_released_note_kept_as_current :
    stC.currentNoteHeld.note = some 62 ∧
    stC.notesHeld.map NoteInfo.note = [some 60] := by decide

/-- C2 (code bug): with `octave_transpose = 0` the per-pitch-class
transpose is never applied, because the source mutates
`mapped_note_info` only inside the `octave_transpose != 0` branch.  With
transpose +7 on an active pitch class and octave transpose 0, pressing
C4 yields the chord {60}, not {67}. -/
theorem c2_transpose_not_applied :
    (buildChord p2 n60).map NoteInfo.note = [some 60] ∧
    (p2.notes (60 % 12)).transpose = 7 := by decide

/-- C3 (code bug): releasing all pressed notes does not always clear the
chord.  Press C4, press D4, release D4, release C4: the held-note stack
is empty, yet the generated chord for C4 is still present (its note-off
events are never emitted), because `current_note_held` was corrupted to
the released note 62 so the final note-off (60) does not match it. -/
theorem c3_stack_empty_chord_not_cleared :
    stD.notesHeld = [] ∧ stD.generatedChord = [⟨some 60, 0, 1, 0⟩] := by decide

/-- C7 (code bug): the output-channel remap uses the 1..16 parameter
value directly as the wire channel (unlike the input filter, which
subtracts 1), so forcing output channel 16 emits note events with
channel 16, outside the NoteEvent range [0,15]. -/
theorem c7_forced_channel_out_of_range :
    (processEvent p7 TransposerState.initial (MidiEvent.noteOn 60 0 1 0)).midiEvents =
      [MidiEvent.noteOn 60 16 1 0] ∧ ¬ (16 ≤ 15) := by decide

/-- C4 counterexample: a configured negative interval is *not* included
in the chord.  With interval -5 configured on an active pitch class
(transpose 0, octave transpose 0), pressing C4 yields {60}: the pitch 55
demanded by the claim is absent, because `build_chord` keeps only the
interval sliders whose value is strictly positive. -/
theorem c4_negative_interval_dropped :
    (buildChord pC4 n60).map NoteInfo.note = [some 60] ∧
    (-5 : ℤ) ∈ (pC4.notes 0).intervals := by decide

/-- C4 (amended): chord pitch-set characterisation.  For parameter
values in their declared ranges and a mapped pitch in [0,127], a pitch
`m` is in the generated chord iff either `octave_transpose ≠ 0` and `m`
is the un-octave-shifted mapped pitch, or `m = mapped_pitch +
12*octave_transpose + i` lies in [0,127] where `i` is 0 (always present)
or a *strictly positive* configured interval — non-positive configured
intervals are ignored, unlike the claim's "negative intervals included"
(see the counterexample).  Because the source applies the per-pitch-class
transpose only together with the octave check, the mapped pitch is
`note + transpose` when `octave_transpose ≠ 0` and the plain `note` when
it is 0. -/
theorem c4_chord_pitch_membership :
    ∀ (p : Params) (n ch : ℕ) (v : ℚ) (tm : ℕ) (np : NoteParam) (m : ℕ),
      p.notes (n % 12) = np →
      np.active = true →
      n ≤ 127 →
      -12 ≤ np.transpose → np.transpose ≤ 12 →
      -1 ≤ p.octaveTranspose → p.octaveTranspose ≤ 4 →
      (∀ i ∈ np.intervals, -12 ≤ i ∧ i ≤ 12) →
      0 ≤ (n : ℤ) + np.transpose → (n : ℤ) + np.transpose ≤ 127 →
      ((∃ x ∈ buildChord p ⟨some n, ch, v, tm⟩, x.note = some m) ↔
        ((p.octaveTranspose ≠ 0 ∧ (m : ℤ) = (n : ℤ) + np.transpose) ∨
         (∃ i : ℤ, (i = 0 ∨ (i ∈ np.intervals ∧ 0 < i)) ∧
           (m : ℤ) = (if p.octaveTranspose ≠ 0 then (n : ℤ) + np.transpose else (n : ℤ)) +
             12 * p.octaveTranspose + i ∧
           m ≤ 127))) := by
  intro p n ch v tm np m hnp hact hn htr1 htr2 hot1 hot2 hintv hmp1 hmp2
  have hotne : toU8 p.octaveTranspose ≠ 0 ↔ p.octaveTranspose ≠ 0 :=
    toU8_ne_zero _ (by omega) (by omega)
  have hM : (toU8 ((n : ℤ) + np.transpose) : ℤ) = (n : ℤ) + np.transpose :=
    toU8_eq_self _ hmp1 (by omega)
  have hib : ∀ i : ℤ, (i = 0 ∨ (i ∈ np.intervals ∧ 0 < i)) → -12 ≤ i ∧ i ≤ 12 := by
    rintro i (rfl | ⟨hmm, _⟩)
    · exact ⟨by norm_num, by norm_num⟩
    · exact hintv i hmm
  simp only [buildChord, hnp, hact, Bool.true_eq_false, if_false, List.mem_append,
    List.mem_filterMap, List.mem_cons, List.mem_dedup, List.mem_filter,
    decide_eq_true_eq, mem_ite_singleton, ifNoneSome_eq_some]
  by_cases hc : toU8 p.octaveTranspose ≠ 0
  · have hotZ : p.octaveTranspose ≠ 0 := hotne.mp hc
    have hcT : (toU8 p.octaveTranspose ≠ 0) = True := eq_true hc
    have hoT : (p.octaveTranspose ≠ 0) = True := eq_true hotZ
    simp only [hcT, hoT, if_true, true_and]
    constructor
    · rintro ⟨x, rfl | ⟨i, hi, hle, rfl⟩, hnote⟩
      · left
        replace hnote : toU8 ((n : ℤ) + np.transpose) = m := by simpa using hnote
        omega
      · right
        have hiff := interval_pitch_iff ((toU8 ((n : ℤ) + np.transpose)) : ℤ)
          p.octaveTranspose i m (by positivity) (by omega) hot1 hot2
          (hib i hi).1 (hib i hi).2
        obtain ⟨hmeq, hm127⟩ := hiff.mp ⟨hle, by simpa using hnote⟩
        refine ⟨i, hi, ?_, hm127⟩
        omega
    · rintro (hm | ⟨i, hi, hmeq, hm127⟩)
      · refine ⟨⟨some (toU8 ((n : ℤ) + np.transpose)), ch, v, tm⟩, Or.inl rfl, ?_⟩
        simp only [Option.some_inj]
        omega
      · have hiff := interval_pitch_iff ((toU8 ((n : ℤ) + np.transpose)) : ℤ)
          p.octaveTranspose i m (by positivity) (by omega) hot1 hot2
          (hib i hi).1 (hib i hi).2
        obtain ⟨hle, hEq⟩ := hiff.mpr ⟨by omega, hm127⟩
        exact ⟨⟨some (toU8 ((toU8 ((n : ℤ) + np.transpose) : ℤ) +
          (toU8 p.octaveTranspose : ℤ) * 12 + i)), ch, v, tm⟩,
          Or.inr ⟨i, hi, hle, rfl⟩, by simp [hEq]⟩
  · have hzero : p.octaveTranspose = 0 := by
      by_contra hh
      exact hc (hotne.mpr hh)
    have hzero' : ¬ p.octaveTranspose ≠ 0 := fun h => h hzero
    simp only [hc, hzero', if_false, false_and, false_or]
    constructor
    · rintro ⟨x, ⟨i, hi, hle, rfl⟩, hnote⟩
      have hiff := interval_pitch_iff (n : ℤ) p.octaveTranspose i m
        (by positivity) (by omega) hot1 hot2 (hib i hi).1 (hib i hi).2
      obtain ⟨hmeq, hm127⟩ := hiff.mp ⟨hle, by simpa using hnote⟩
      exact ⟨i, hi, hmeq, hm127⟩
    · rintro ⟨i, hi, hmeq, hm127⟩
      have hiff := interval_pitch_iff (n : ℤ) p.octaveTranspose i m
        (by positivity) (by omega) hot1 hot2 (hib i hi).1 (hib i hi).2
      obtain ⟨hle, hEq⟩ := hiff.mpr ⟨hmeq, hm127⟩
      exact ⟨⟨some (toU8 ((n : ℤ) + (toU8 p.octaveTranspose : ℤ) * 12 + i)), ch, v, tm⟩,
        ⟨i, hi, hle, rfl⟩, by simp [hEq]⟩

/-- C4 witness: the spec's major-triad scenario — pitch class C active
with intervals {4,7}, no transpose, no octave transpose; pressing C4
puts 64 (= 60 + interval 4) in the chord. -/
theorem c4_chord_pitch_membership_witness :
    ∃ x ∈ buildChord pTriad n60, x.note = some 64 := by
  have h := c4_chord_pitch_membership pTriad 60 0 1 0
    ⟨true, 0, [4, 7, 0, 0, 0, 0]⟩ 64 rfl rfl (by norm_num) (by norm_num)
    (by norm_num) (by decide) (by decide) (by decide) (by norm_num) (by norm_num)
  exact h.mpr (Or.inr ⟨4, Or.inr ⟨by decide, by decide⟩, by decide, by norm_num⟩)

/-- C5 counterexample: when the block size *equals* the note duration
(which divides evenly), free mode emits no triggers at all.  At sample
rate 1000 and speed 1 the duration is 10; five consecutive blocks of 10
samples (T = 50) fire 0 triggers while `floor(T / duration) = 5`, a
deviation far beyond the claimed ±1. -/
theorem c5_equal_block_counterexample :
    getNoteDuration { exArp with numSamples := 10 } 1 = 10 ∧
    runFreeCount 1 10 5 exArp + 1 < 5 * 10 / getNoteDuration { exArp with numSamples := 10 } 1 := by
  have h10 : getNoteDuration { exArp with numSamples := 10 } 1 = 10 := by
    rw [getNoteDuration_eq_free _ _ rfl]; exact freeNoteDuration_1000
  have hrun : runFreeCount 1 10 5 exArp = 0 :=
    runFreeBlocks_equal_count 1 10 5 exArp (by omega) rfl h10
  rw [h10, hrun]
  exact ⟨rfl, by omega⟩

/-- C6 counterexample: the computed free-mode note duration is *not*
floored at 1 sample.  At sample rate 50 and speed 1 the formula
`(samplerate * 0.1 * (0.1 + 5*(1-speed))) as u32` truncates 0.5 to 0. -/
theorem c6_duration_not_floored :
    getNoteDuration exLow 1 = 0 := by
  rw [getNoteDuration_eq_free _ _ rfl]; exact freeNoteDuration_50

/-- C6 (amended): the defensive guards that the code actually has.  The
modulo by the note duration in free mode sits inside the
`num_samples < duration` branch, so it is never a modulo by zero; the
divisor `tempo.unwrap_or(60)/60` of `arpeggiate_sync` is 1 (hence
nonzero) when the tempo is absent; and `get_note_duration` divides by
the tempo only under its `synced && tempo > 0` guard — with the synced
flag off a zero or absent tempo simply selects the free-running formula
(it does *not* behave as 60 BPM there), which is not floored at 1
sample. -/
theorem c6_timing_guards :
    ∀ (st : ArpState) (speed : ℚ),
      (st.numSamples < getNoteDuration st speed → 0 < getNoteDuration st speed) ∧
      (st.tempo = none → tempoDivisor st = 1) ∧
      (st.synced = false → getNoteDuration st speed = freeNoteDuration st.samplerate speed) := by
  intro st speed
  refine ⟨fun h => by omega, fun h => ?_, fun h => getNoteDuration_eq_free st speed h⟩
  simp [tempoDivisor, h]

/-- C6 witness: the guards instantiated at a concrete free-mode state
(sample rate 1000, block of 5 samples, no tempo): the duration 10 is
positive, the sync divisor defaults to 1, and the free formula is
selected. -/
theorem c6_timing_guards_witness :
    0 < getNoteDuration exArpSmall 1 ∧ tempoDivisor exArpSmall = 1 ∧
    getNoteDuration exArpSmall 1 = freeNoteDuration exArpSmall.samplerate 1 := by
  have h := c6_timing_guards exArpSmall 1
  have hd : getNoteDuration exArpSmall 1 = 10 := by
    rw [getNoteDuration_eq_free _ _ rfl]; exact freeNoteDuration_1000
  exact ⟨h.1 (by rw [hd]; decide), h.2.1 rfl, h.2.2 rfl⟩

/-- C5 (amended): free-mode periodicity holds when the block size
divides evenly into *and is strictly smaller than* the note duration
(`duration = k * block`, `k ≥ 2`).  Starting from a reset sample counter,
the number of triggers fired over `m` consecutive blocks (`T = m * block`
samples) is exactly `floor(T / duration)`.  When the block size equals
the duration the loop fires nothing (see the counterexample). -/
theorem c5_free_mode_periodicity :
    ∀ (st : ArpState) (speed : ℚ) (k ns m : ℕ),
      2 ≤ k → 1 ≤ ns → st.time = 0 →
      getNoteDuration { st with numSamples := ns } speed = k * ns →
      (runFreeBlocks speed ns m st).2 = m * ns / (k * ns) := by
  intro st speed k ns m hk hns ht hd
  have h2ns : 2 * ns ≤ k * ns := Nat.mul_le_mul_right ns hk
  have h := runFreeBlocks_periodic_aux speed (k * ns) ns hns (by omega) m st (by omega) hd
  rw [h, ht, Nat.zero_add]

/-- C5 witness: at sample rate 1000 and speed 1 (duration 10), seven
blocks of 5 samples fire exactly `35 / 10 = 3` triggers. -/
theorem c5_free_mode_periodicity_witness :
    (runFreeBlocks 1 5 7 exArp).2 = 7 * 5 / (2 * 5) := by
  apply c5_free_mode_periodicity exArp 1 2 5 7 (by decide) (by decide) rfl
  rw [getNoteDuration_eq_free _ _ rfl]
  exact freeNoteDuration_1000

/-- C9: `Arpeggiator::restart` (as invoked at the end of
`process_note_on` on a monophonic retrigger, i.e. with notes already
held) resets the rotation index to 0 and leaves the clock-phase fields
`division`, `time` and `next_beat_position` untouched. -/
theorem c9_restart_preserves_clock :
    ∀ (p : Params) (st : TransposerState) (ni : NoteInfo), st.notesHeld ≠ [] →
      (processNoteOn p st ni).arp.currentIndex = 0 ∧
      (processNoteOn p st ni).arp.division = st.arp.division ∧
      (processNoteOn p st ni).arp.time = st.arp.time ∧
      (processNoteOn p st ni).arp.nextBeatPosition = st.arp.nextBeatPosition := by
  intro p st ni _
  rw [processNoteOn_arp]
  exact ⟨rfl, rfl, rfl, rfl⟩

/-- C9 witness: pressing D4 while C4 is already held resets the index
and preserves the clock fields of the concrete state. -/
theorem c9_restart_preserves_clock_witness :
    (processNoteOn pD stA n62).arp.currentIndex = 0 ∧
    (processNoteOn pD stA n62).arp.division = stA.arp.division ∧
    (processNoteOn pD stA n62).arp.time = stA.arp.time ∧
    (processNoteOn pD stA n62).arp.nextBeatPosition = stA.arp.nextBeatPosition :=
  c9_restart_preserves_clock pD stA n62 (by decide)

/-- C8: rotation behaviour of `play_arp_note`.  On every fired trigger
the note-off for the previously sounding arpeggio note (if any) is
emitted first, and — when the chord can be indexed — the note-on for
`chord[current_index]` follows at the same offset, after which the index
advances to `(current_index + 1) mod chord.length`.  When the chord is
empty no note-on is emitted and the arpeggiator note is left untouched
(in particular it stays unset if it was unset). -/
theorem c8_arp_rotation :
    ∀ (st : TransposerState) (t : ℕ),
      (st.generatedChord = [] →
        playArpNote st t =
          { st with midiEvents := st.midiEvents ++ arpOffEvents st t }) ∧
      (∀ ni, st.generatedChord.get? st.arp.currentIndex = some ni →
        playArpNote st t = { st with
          arp := { st.arp with
                     noteInfo := ni,
                     currentIndex := (st.arp.currentIndex + 1) % st.generatedChord.length },
          midiEvents := st.midiEvents ++ arpOffEvents st t ++
            [MidiEvent.noteOn (unwrapN ni.note) ni.channel ni.velocity t] }) := by
  intro st t
  constructor
  · intro h
    simp only [playArpNote, h, if_pos]
    cases hn : st.arp.noteInfo.note with
    | none =>
      simp only [NoteInfo.isActive, hn, Option.isSome_none, Bool.false_eq_true,
        if_false, arpOffEvents, List.append_nil]
      rw [← h]
    | some n =>
      simp [NoteInfo.isActive, hn, arpOffEvents, pushEvent, unwrapN, h]
  · intro ni hni
    have hne : st.generatedChord ≠ [] := by
      intro h
      rw [h] at hni
      simp at hni
    have hni2 : st.generatedChord[st.arp.currentIndex]? = some ni := by
      rw [← List.get?_eq_getElem?]
      exact hni
    have hgetD : st.generatedChord.getD st.arp.currentIndex default = ni := by
      simp [List.getD, hni2]
    simp only [playArpNote, if_neg hne, hgetD]
    cases hn : st.arp.noteInfo.note with
    | none => simp [NoteInfo.isActive, hn, arpOffEvents, pushEvent]
    | some n =>
      simp [NoteInfo.isActive, hn, arpOffEvents, pushEvent, unwrapN,
        List.append_assoc]

/-- C8 witness: with the triad {60,64,67} at rotation index 1 and note
60 sounding, a trigger at offset 100 emits Off(60) then On(64) at the
same offset, and the index advances to 2; on the initial (empty-chord)
state a trigger emits nothing and changes nothing. -/
theorem c8_arp_rotation_witness :
    playArpNote stW 100 = { stW with
      arp := { stW.arp with
                 noteInfo := ⟨some 64, 2, 1, 0⟩,
                 currentIndex := (stW.arp.currentIndex + 1) % stW.generatedChord.length },
      midiEvents := stW.midiEvents ++ arpOffEvents stW 100 ++
        [MidiEvent.noteOn 64 2 1 100] } ∧
    playArpNote TransposerState.initial 7 = { TransposerState.initial with
      midiEvents := TransposerState.initial.midiEvents ++
        arpOffEvents TransposerState.initial 7 } :=
  ⟨(c8_arp_rotation stW 100).2 ⟨some 64, 2, 1, 0⟩ rfl,
   (c8_arp_rotation TransposerState.initial 7).1 rfl⟩

/-- Case split on `process_note_off`: it either leaves the chord and the
rotation index untouched, or clears the chord, or rebuilds the chord and
resets the index to 0. -/
lemma noteOffEmptyBranch_chord (st2 : TransposerState) (ni : NoteInfo) :
    (noteOffEmptyBranch st2 ni).generatedChord = [] := by
  simp only [noteOffEmptyBranch]
  split <;> rfl

lemma noteOffHeldBranch_cases (p : Params) (st2 : TransposerState) (ni : NoteInfo) :
    noteOffHeldBranch p st2 ni = st2 ∨
    ((noteOffHeldBranch p st2 ni).arp.currentIndex = 0 ∧
      ∃ nn, (noteOffHeldBranch p st2 ni).generatedChord = buildChord p nn) := by
  simp only [noteOffHeldBranch]
  split
  · exact Or.inl rfl
  · rename_i newNi _
    refine Or.inr ⟨?_, newNi, ?_⟩
    · split <;> rfl
    · split <;> rfl

lemma processNoteOff_chord_cases (p : Params) (st : TransposerState) (ni : NoteInfo) :
    ((processNoteOff p st ni).generatedChord = st.generatedChord ∧
      (processNoteOff p st ni).arp.currentIndex = st.arp.currentIndex) ∨
    (processNoteOff p st ni).generatedChord = [] ∨
    ((processNoteOff p st ni).arp.currentIndex = 0 ∧
      ∃ nn, (processNoteOff p st ni).generatedChord = buildChord p nn) := by
  simp only [processNoteOff]
  split
  · split
    · split
      · exact Or.inr (Or.inl (noteOffEmptyBranch_chord _ _))
      · rcases noteOffHeldBranch_cases p _ ni with hcase | ⟨hi, nn, hc⟩
        · rw [hcase]
          exact Or.inl ⟨rfl, rfl⟩
        · exact Or.inr (Or.inr ⟨hi, nn, hc⟩)
    · split
      · exact Or.inr (Or.inl (noteOffEmptyBranch_chord _ _))
      · rcases noteOffHeldBranch_cases p _ ni with hcase | ⟨hi, nn, hc⟩
        · rw [hcase]
          exact Or.inl ⟨rfl, rfl⟩
        · exact Or.inr (Or.inr ⟨hi, nn, hc⟩)
  · exact Or.inl ⟨rfl, rfl⟩

/-- C10: the implicit indexing invariant.  It holds in the initial
state, it is preserved by `process_note_on`, `process_note_off` and
`play_arp_note`, and under it the chord access
`generated_chord[current_index]` of `play_arp_note` is in bounds
whenever the chord is non-empty. -/
theorem c10_chord_index_inv :
    ChordIndexInv TransposerState.initial ∧
    (∀ (p : Params) (st : TransposerState) (ni : NoteInfo),
      ChordIndexInv st → ChordIndexInv (processNoteOn p st ni)) ∧
    (∀ (p : Params) (st : TransposerState) (ni : NoteInfo),
      ChordIndexInv st → ChordIndexInv (processNoteOff p st ni)) ∧
    (∀ (st : TransposerState), ChordIndexInv st → st.generatedChord ≠ [] →
      (st.generatedChord.get? st.arp.currentIndex).isSome = true) ∧
    (∀ (st : TransposerState) (t : ℕ),
      ChordIndexInv st → ChordIndexInv (playArpNote st t)) := by
  refine ⟨fun h => absurd rfl h, ?_, ?_, ?_, ?_⟩
  · intro p st ni _
    unfold ChordIndexInv
    rw [processNoteOn_arp, processNoteOn_generatedChord]
    intro hne
    exact List.length_pos.mpr hne
  · intro p st ni h
    unfold ChordIndexInv at h ⊢
    rcases processNoteOff_chord_cases p st ni with ⟨hc, hi⟩ | hc | ⟨hi, nn, hc⟩
    · rw [hc, hi]
      exact h
    · intro hne
      exact absurd hc hne
    · intro hne
      rw [hi]
      exact List.length_pos.mpr hne
  · intro st h hne
    have hlt := h hne
    cases hg : st.generatedChord.get? st.arp.currentIndex with
    | some _ => rfl
    | none =>
      have := List.get?_eq_none.mp hg
      omega
  · intro st t h
    unfold ChordIndexInv at h ⊢
    by_cases hch : st.generatedChord = []
    · simp only [playArpNote, hch, if_pos]
      split <;> intro hne <;> simp_all
    · have hpos : 0 < st.generatedChord.length := List.length_pos.mpr hch
      simp only [playArpNote, if_neg hch]
      split <;> intro _ <;> simpa using Nat.mod_lt _ hpos

/-- C10 witness: the invariant instantiated on concrete states — the
initial state, a note-on, the note-off that retriggers the previous
note, the in-bounds access on the triad state, and a fired trigger. -/
theorem c10_chord_index_inv_witness :
    ChordIndexInv (processNoteOn pD TransposerState.initial n60) ∧
    ChordIndexInv (processNoteOff pD stB off62) ∧
    (stW.generatedChord.get? stW.arp.currentIndex).isSome = true ∧
    ChordIndexInv (playArpNote stW 100) := by
  have h := c10_chord_index_inv
  exact ⟨h.2.1 pD TransposerState.initial n60 h.1,
         h.2.2.1 pD stB off62 (by intro _; decide),
         h.2.2.2.1 stW (by intro _; decide) (by decide),
         h.2.2.2.2 stW 100 (by intro _; decide)⟩

end MidiTransposerModel
